import Mathlib

/-!
Shallow embedding of the capital-flow accounting engine of the trading
dashboard (`models.py`, class `TradingDataManager`).

Modelling conventions:
* Money and percentages are exact rationals (`ℚ`); the Python source uses
  binary floats, which we idealize as exact field arithmetic.
* Calendar dates are integer day indices (`ℤ`).  Pandas period conversion
  (`dt.to_period('M')` / `dt.to_period('2W')`) is modelled by abstract
  functions `monthOf, biweekOf : ℤ → ℤ`; the claims under study depend only
  on equality and order of period keys, never on calendar arithmetic, so
  theorems are universally quantified over these functions.
* `round(x, 2)` from Python is modelled by `round2` (round half up to two
  decimals).
* DataFrames become lists of structures; `groupby` over period keys becomes
  deduplication plus ascending sort of the keys (pandas sorts group keys).
-/

/-- Models Python `round(x, 2)`: round to two decimal places. -/
def round2 (x : ℚ) : ℚ := (((x * 100 + 1 / 2).floor : ℤ) : ℚ) / 100

/-- One round-trip trade row of `trades.csv` (`models.py` trade columns).
Dates are integer day indices. -/
structure Trade where
  buy_date : ℤ
  sell_date : ℤ
  stock : String
  buy_price : ℚ
  sell_price : ℚ
  quantity : ℚ
deriving DecidableEq

/-- Derived field `profit_loss = (sell_price - buy_price) * quantity`
(`upload_trades`, line 186). -/
def Trade.profit_loss (t : Trade) : ℚ := (t.sell_price - t.buy_price) * t.quantity

/-- The `type` column of a capital movement. -/
inductive MovementType where
  | contribution
  | withdrawal
deriving DecidableEq

/-- One row of `capital_movements.csv`. -/
structure Movement where
  client_id : String
  date : ℤ
  mtype : MovementType
  amount : ℚ
deriving DecidableEq

/-- One row of `clients.csv`. -/
structure Client where
  client_id : String
  starting_capital : ℚ
  investment_start_date : Option ℤ
  active : Bool
deriving DecidableEq

/-- One row of `monthly_capital.csv` (a `MonthlyCapitalOverride`): an
admin-set total-capital denominator, keyed by a date inside the month. -/
structure CapitalOverride where
  month : ℤ
  total_capital : ℚ
deriving DecidableEq

/-- A resolved share configuration (`tax_rate`, `trader_share`,
`investor_share`), as returned by `get_config`.  `update_config` always
writes all three fields of a client entry, so entries are modelled total. -/
structure ShareCfg where
  tax_rate : ℚ
  trader_share : ℚ
  investor_share : ℚ
deriving DecidableEq

/-- The two-level configuration store (`config.json`): a global section and
per-client overrides. -/
structure ConfigStore where
  globalCfg : ShareCfg
  clients : List (String × ShareCfg)
deriving DecidableEq

/-- `get_config(client_id)` (`models.py` lines 902-923): per-client entry if
present, else the global configuration.  Entries written by `update_config`
always carry all three fields, so the field-by-field fallback of the source
coincides with this wholesale fallback. -/
def getConfig (s : ConfigStore) (cid? : Option String) : ShareCfg :=
  match cid? with
  | none => s.globalCfg
  | some cid =>
    match s.clients.find? (fun p => decide (p.1 = cid)) with
    | some p => p.2
    | none => s.globalCfg

/-- `update_config(tax_rate, trader_share, client_id)` (`models.py` lines
875-900).  Setting `trader_share` recomputes `investor_share = 1 -
trader_share`; a missing client entry is first created with the defaults
(0.25, 0.40, 0.60). -/
def updateConfig (s : ConfigStore) (tax? trader? : Option ℚ) (cid? : Option String) :
    ConfigStore :=
  match cid? with
  | none =>
    let g0 := s.globalCfg
    let g1 := match tax? with
      | some t => { g0 with tax_rate := t }
      | none => g0
    let g2 := match trader? with
      | some tr => { g1 with trader_share := tr, investor_share := 1 - tr }
      | none => g1
    { s with globalCfg := g2 }
  | some cid =>
    let base := match s.clients.find? (fun p => decide (p.1 = cid)) with
      | some p => p.2
      | none => ⟨1/4, 2/5, 3/5⟩
    let e1 := match tax? with
      | some t => { base with tax_rate := t }
      | none => base
    let e2 := match trader? with
      | some tr => { e1 with trader_share := tr, investor_share := 1 - tr }
      | none => e1
    { s with clients := (cid, e2) :: s.clients.filter (fun p => decide (p.1 ≠ cid)) }

/-- Sum of the amounts of the contribution rows of a movement list. -/
def contributionsSum (movs : List Movement) : ℚ :=
  ((movs.filter (fun m => decide (m.mtype = MovementType.contribution))).map
    Movement.amount).sum

/-- Sum of the amounts of the withdrawal rows of a movement list. -/
def withdrawalsSum (movs : List Movement) : ℚ :=
  ((movs.filter (fun m => decide (m.mtype = MovementType.withdrawal))).map
    Movement.amount).sum

/-- `get_monthly_capital(month)` (`models.py` lines 634-657): the override
row for that month if one exists (first match, `iloc[0]`), else the sum of
all clients' `starting_capital` (no filtering on `active`) plus net
contributions minus withdrawals of all movements dated in or before the
month, across all clients. -/
def getMonthlyCapital (overrides : List CapitalOverride) (clients : List Client)
    (movements : List Movement) (monthOf : ℤ → ℤ) (m : ℤ) : ℚ :=
  match overrides.find? (fun o => decide (monthOf o.month = m)) with
  | some o => o.total_capital
  | none =>
    let upTo := movements.filter (fun mv => decide (monthOf mv.date ≤ m))
    (clients.map Client.starting_capital).sum + contributionsSum upTo - withdrawalsSum upTo

/-- `get_biweekly_capital(period)` (`models.py` lines 659-689): same shape
as `get_monthly_capital` but both the override table and the movement dates
are keyed through the two-week period function. -/
def getBiweeklyCapital (overrides : List CapitalOverride) (clients : List Client)
    (movements : List Movement) (biweekOf : ℤ → ℤ) (p : ℤ) : ℚ :=
  match overrides.find? (fun o => decide (biweekOf o.month = p)) with
  | some o => o.total_capital
  | none =>
    let upTo := movements.filter (fun mv => decide (biweekOf mv.date ≤ p))
    (clients.map Client.starting_capital).sum + contributionsSum upTo - withdrawalsSum upTo

/-- The raw period return percentage before normalization: pandas division
`Total_PL / Client_Capital * 100` rounded to two decimals yields a
non-finite value (NaN or ±inf, here `none`) exactly when the denominator is
zero. -/
def rawReturnPct (pl cap : ℚ) : Option ℚ :=
  if cap = 0 then none else some (round2 (pl / cap * 100))

/-- The normalized `Return_Pct`: `.fillna(0).replace([inf, -inf], 0)`
(`models.py` lines 292-293 and 374-375) maps every non-finite division
result to 0. -/
def returnPctGuard (pl cap : ℚ) : ℚ := (rawReturnPct pl cap).getD 0

/-- One aggregated row of `get_monthly_strategy_returns` or
`get_biweekly_strategy_returns` (the columns the reconciliation engine
consumes). -/
structure RetRow where
  period : ℤ
  total_pl : ℚ
  client_capital : ℚ
  return_pct : ℚ
deriving DecidableEq

/-- Insert into an ascending list (helper for sorting group keys). -/
def insertAsc (x : ℤ) : List ℤ → List ℤ
  | [] => [x]
  | y :: ys => if x ≤ y then x :: y :: ys else y :: insertAsc x ys

/-- Ascending insertion sort: pandas `groupby` emits group keys sorted
ascending. -/
def sortAsc (l : List ℤ) : List ℤ := l.foldr insertAsc []

/-- The trade filter applied when a `client_id` is supplied: keep trades
with `sell_date ≥ investment_start_date` of that client (`models.py` lines
259-271 and 329-341). -/
def filteredTradesFor (trades : List Trade) (clients : List Client)
    (cid? : Option String) : List Trade :=
  match cid? with
  | none => trades
  | some cid =>
    match clients.find? (fun c => decide (c.client_id = cid)) with
    | some c =>
      match c.investment_start_date with
      | some d => trades.filter (fun t => decide (d ≤ t.sell_date))
      | none => trades
    | none => trades

/-- `get_monthly_strategy_returns(client_id)` (`models.py` lines 251-319),
restricted to the columns the reconciliation engine reads: per non-empty
month, total P&L, the capital denominator, and the normalized return
percentage. -/
def getMonthlyStrategyReturns (trades : List Trade) (clients : List Client)
    (overrides : List CapitalOverride) (movements : List Movement)
    (monthOf : ℤ → ℤ) (cid? : Option String) : List RetRow :=
  if trades.isEmpty then []
  else if (filteredTradesFor trades clients cid?).isEmpty then []
  else
    (sortAsc (((filteredTradesFor trades clients cid?).map
        (fun t => monthOf t.sell_date)).dedup)).map fun m =>
      let pl := (((filteredTradesFor trades clients cid?).filter
        (fun t => decide (monthOf t.sell_date = m))).map Trade.profit_loss).sum
      let cap := getMonthlyCapital overrides clients movements monthOf m
      ⟨m, pl, cap, returnPctGuard pl cap⟩

/-- `get_biweekly_strategy_returns(client_id)` (`models.py` lines 321-415),
same shape with two-week periods and `get_biweekly_capital`. -/
def getBiweeklyStrategyReturns (trades : List Trade) (clients : List Client)
    (overrides : List CapitalOverride) (movements : List Movement)
    (biweekOf : ℤ → ℤ) (cid? : Option String) : List RetRow :=
  if trades.isEmpty then []
  else if (filteredTradesFor trades clients cid?).isEmpty then []
  else
    (sortAsc (((filteredTradesFor trades clients cid?).map
        (fun t => biweekOf t.sell_date)).dedup)).map fun p =>
      let pl := (((filteredTradesFor trades clients cid?).filter
        (fun t => decide (biweekOf t.sell_date = p))).map Trade.profit_loss).sum
      let cap := getBiweeklyCapital overrides clients movements biweekOf p
      ⟨p, pl, cap, returnPctGuard pl cap⟩

/-- One emitted `PeriodBreakdown` record of the reconciliation walk
(`models.py` lines 785-798 and 841-853). -/
structure Entry where
  period : ℤ
  starting_capital : ℚ
  contributions : ℚ
  withdrawals : ℚ
  net_contributions : ℚ
  capital_after_contributions : ℚ
  return_pct : ℚ
  profit_after_tax : ℚ
  investor_share : ℚ
  trader_share : ℚ
  ending_capital : ℚ
deriving DecidableEq

/-- Client movements falling in one period (grouping of `movements` by the
period of their date). -/
def periodMovements (movs : List Movement) (periodOf : ℤ → ℤ) (p : ℤ) : List Movement :=
  movs.filter (fun m => decide (periodOf m.date = p))

/-- `trading_gain = capital_after_contributions * (return_pct / 100)`
(`models.py` lines 766-767 and 830-831). -/
def tradingGain (capAfter retPct : ℚ) : ℚ := capAfter * (retPct / 100)

/-- `profit_after_tax = gain * (1 - tax_rate)` (`models.py` lines 771 and
835). -/
def profitAfterTax (cfg : ShareCfg) (gain : ℚ) : ℚ := gain * (1 - cfg.tax_rate)

/-- `investor_share = profit_after_tax * investor_share` (`models.py` lines
772 and 836). -/
def investorAmt (cfg : ShareCfg) (pat : ℚ) : ℚ := pat * cfg.investor_share

/-- `trader_share = profit_after_tax * trader_share` (`models.py` lines 773
and 837). -/
def traderAmt (cfg : ShareCfg) (pat : ℚ) : ℚ := pat * cfg.trader_share

/-- One iteration of the reconciliation loop shared verbatim by the
biweekly walk (`models.py` lines 749-798) and the monthly walk (lines
813-853): returns the updated running capital and the emitted record. -/
def walkStep (cfg : ShareCfg) (movs : List Movement) (periodOf : ℤ → ℤ)
    (cap : ℚ) (p : ℤ) (retPct : ℚ) : ℚ × Entry :=
  let pm := periodMovements movs periodOf p
  let contrib := contributionsSum pm
  let withdr := withdrawalsSum pm
  let net := contrib - withdr
  let capAfter := cap + net
  let gain := tradingGain capAfter retPct
  let pat := profitAfterTax cfg gain
  let inv := investorAmt cfg pat
  let tr := traderAmt cfg pat
  let ending := capAfter + inv
  (ending,
    { period := p
      starting_capital := round2 cap
      contributions := round2 contrib
      withdrawals := round2 withdr
      net_contributions := round2 net
      capital_after_contributions := round2 capAfter
      return_pct := retPct
      profit_after_tax := round2 pat
      investor_share := round2 inv
      trader_share := round2 tr
      ending_capital := round2 ending })

/-- The reconciliation walk over a list of aggregated period rows, carrying
the running capital across iterations. -/
def walk (cfg : ShareCfg) (movs : List Movement) (periodOf : ℤ → ℤ) :
    ℚ → List RetRow → List Entry
  | _, [] => []
  | cap, r :: rs =>
    (walkStep cfg movs periodOf cap r.period r.return_pct).2 ::
      walk cfg movs periodOf (walkStep cfg movs periodOf cap r.period r.return_pct).1 rs

/-- The running capital left after the walk (the final value of the Python
`current_capital` variable, unrounded). -/
def walkFinal (cfg : ShareCfg) (movs : List Movement) (periodOf : ℤ → ℤ) :
    ℚ → List RetRow → ℚ
  | cap, [] => cap
  | cap, r :: rs =>
    walkFinal cfg movs periodOf (walkStep cfg movs periodOf cap r.period r.return_pct).1 rs

/-- The result record of `get_client_capital_flow`. -/
structure CapitalFlow where
  starting_capital : ℚ
  current_capital : ℚ
  total_contributions : ℚ
  total_withdrawals : ℚ
  total_returns : ℚ
  monthly_breakdown : List Entry
  biweekly_breakdown : List Entry
deriving DecidableEq

/-- `get_client_capital_flow(client_id)` (`models.py` lines 691-873).
Returns `none` when the client is missing; returns the empty ledger with
`current_capital` at the anchor when the biweekly aggregation is empty;
otherwise runs the biweekly walk from the anchor and the monthly walk from
the literal `starting_capital`, and takes `current_capital` and
`total_returns` from the monthly breakdown when it is non-empty. -/
def getClientCapitalFlow (monthOf biweekOf : ℤ → ℤ) (trades : List Trade)
    (clients : List Client) (overrides : List CapitalOverride)
    (movements : List Movement) (cfgStore : ConfigStore) (cid : String) :
    Option CapitalFlow :=
  match clients.find? (fun c => decide (c.client_id = cid)) with
  | none => none
  | some client =>
    let movs := movements.filter (fun m => decide (m.client_id = cid))
    let totalContrib := contributionsSum movs
    let totalWithdr := withdrawalsSum movs
    let base := client.starting_capital + totalContrib - totalWithdr
    let bwRows := getBiweeklyStrategyReturns trades clients overrides movements biweekOf
      (some cid)
    if bwRows.isEmpty then
      some ⟨client.starting_capital, base, totalContrib, totalWithdr, 0, [], []⟩
    else
      let cfg := getConfig cfgStore (some cid)
      let bwBreakdown := walk cfg movs biweekOf base bwRows
      let bwFinal := walkFinal cfg movs biweekOf base bwRows
      let moRows := getMonthlyStrategyReturns trades clients overrides movements monthOf
        (some cid)
      let moBreakdown := walk cfg movs monthOf client.starting_capital moRows
      let totalReturns :=
        match moBreakdown.getLast? with
        | some _ => (moBreakdown.map Entry.profit_after_tax).sum
        | none => (bwBreakdown.map Entry.profit_after_tax).sum
      let ending :=
        match moBreakdown.getLast? with
        | some e => e.ending_capital
        | none =>
          match bwBreakdown.getLast? with
          | some e => e.ending_capital
          | none => bwFinal
      some ⟨client.starting_capital, ending, totalContrib, totalWithdr, totalReturns,
        moBreakdown, bwBreakdown⟩

/-- The six-field dedup signature of a trade (`models.py` lines 204-211). -/
def Trade.sig (t : Trade) : ℤ × ℤ × String × ℚ × ℚ × ℚ :=
  (t.buy_date, t.sell_date, t.stock, t.buy_price, t.sell_price, t.quantity)

/-- `drop_duplicates(subset=['trade_signature'], keep='first')`: keep the
first occurrence of each signature, with `seen` the signatures already
kept. -/
def dedupBySig (seen : List (ℤ × ℤ × String × ℚ × ℚ × ℚ)) :
    List Trade → List Trade
  | [] => []
  | t :: ts =>
    if t.sig ∈ seen then dedupBySig seen ts
    else t :: dedupBySig (t.sig :: seen) ts

/-- `upload_trades` (`models.py` lines 139-249), restricted to the store
update: optional day-trade removal, then, when the store is non-empty, drop
incoming rows whose signature matches a stored trade, dedup the batch
keeping first occurrences, and append; an empty store just receives the
deduplicated batch. -/
def uploadTrades (autoRemove : Bool) (store batch : List Trade) : List Trade :=
  let b1 := if autoRemove then batch.filter (fun t => decide (t.buy_date ≠ t.sell_date))
    else batch
  if store.isEmpty then dedupBySig [] b1
  else
    let b2 := b1.filter (fun t => decide (t.sig ∉ store.map Trade.sig))
    store ++ dedupBySig [] b2

/-- The invariant `trader_share + investor_share = 1` of one configuration
section. -/
def ShareCfg.splitOk (c : ShareCfg) : Prop := c.trader_share + c.investor_share = 1

/-- The configuration invariant: the global section and every client entry
satisfy `trader_share + investor_share = 1`. -/
def configSplitInvariant (s : ConfigStore) : Prop :=
  s.globalCfg.splitOk ∧ ∀ p ∈ s.clients, (Prod.snd p).splitOk

@[simp] lemma decide_contrib_contrib :
    decide (MovementType.contribution = MovementType.contribution) = true := rfl

@[simp] lemma decide_contrib_withdr :
    decide (MovementType.contribution = MovementType.withdrawal) = false := rfl

@[simp] lemma decide_withdr_contrib :
    decide (MovementType.withdrawal = MovementType.contribution) = false := rfl

@[simp] lemma decide_withdr_withdr :
    decide (MovementType.withdrawal = MovementType.withdrawal) = true := rfl

lemma walkStep_starting (cfg : ShareCfg) (movs : List Movement) (periodOf : ℤ → ℤ)
    (cap : ℚ) (p : ℤ) (retPct : ℚ) :
    (walkStep cfg movs periodOf cap p retPct).2.starting_capital = round2 cap := rfl

lemma walkStep_ending (cfg : ShareCfg) (movs : List Movement) (periodOf : ℤ → ℤ)
    (cap : ℚ) (p : ℤ) (retPct : ℚ) :
    (walkStep cfg movs periodOf cap p retPct).2.ending_capital
      = round2 (walkStep cfg movs periodOf cap p retPct).1 := rfl

lemma walk_head_starting (cfg : ShareCfg) (movs : List Movement) (periodOf : ℤ → ℤ)
    (cap : ℚ) (rows : List RetRow) (e : Entry)
    (h : (walk cfg movs periodOf cap rows).head? = some e) :
    e.starting_capital = round2 cap := by
  cases rows with
  | nil => simp [walk] at h
  | cons r rs =>
    simp only [walk, List.head?_cons, Option.some_inj] at h
    rw [← h, walkStep_starting]

/-- Claim C2: for starting capital 10000, no movements, a single period with
return percentage 10, tax rate 0.25 and trader share 0.40, the walk emits
capital_after_contributions 10000, profit_after_tax 750, investor share
450, trader share 300 and ending capital 10450, with trading gain 1000. -/
theorem claim2_scenario :
    walk ⟨1/4, 2/5, 3/5⟩ [] (fun d => d) 10000 [⟨0, 0, 0, 10⟩] =
      [{ period := 0, starting_capital := 10000, contributions := 0, withdrawals := 0,
         net_contributions := 0, capital_after_contributions := 10000, return_pct := 10,
         profit_after_tax := 750, investor_share := 450, trader_share := 300,
         ending_capital := 10450 }] ∧
    tradingGain 10000 10 = 1000 := by
  constructor
  · norm_num [walk, walkStep, periodMovements, contributionsSum, withdrawalsSum,
      tradingGain, profitAfterTax, investorAmt, traderAmt, round2, Rat.floor]
  · norm_num [tradingGain]

/-- Claim C4: in any reconciliation walk, the starting_capital field of
entry i+1 equals the ending_capital field of entry i. -/
theorem claim4_ledger_chaining (cfg : ShareCfg) (movs : List Movement) (periodOf : ℤ → ℤ)
    (cap : ℚ) (rows : List RetRow) (i : ℕ) (e1 e2 : Entry)
    (h1 : (walk cfg movs periodOf cap rows).get? i = some e1)
    (h2 : (walk cfg movs periodOf cap rows).get? (i + 1) = some e2) :
    e2.starting_capital = e1.ending_capital := by
  induction rows generalizing cap i e1 e2 with
  | nil => simp [walk] at h1
  | cons r rs ih =>
    cases i with
    | zero =>
      cases rs with
      | nil => simp [walk] at h2
      | cons r2 rs2 =>
        simp only [walk, List.get?_cons_zero, List.get?_cons_succ, Option.some_inj] at h1 h2
        rw [← h1, ← h2, walkStep_starting, walkStep_ending]
    | succ j =>
      simp only [walk, List.get?_cons_succ] at h1 h2
      exact ih _ _ _ _ h1 h2

/-- Claim C4 witness: concrete two-period walk with zero returns. -/
theorem claim4_witness :
    (⟨1, 100, 0, 0, 0, 100, 0, 0, 0, 0, 100⟩ : Entry).starting_capital
      = (⟨0, 100, 0, 0, 0, 100, 0, 0, 0, 0, 100⟩ : Entry).ending_capital :=
  claim4_ledger_chaining ⟨1/4, 2/5, 3/5⟩ [] (fun d => d) 100 [⟨0, 0, 0, 0⟩, ⟨1, 0, 0, 0⟩]
    0 _ _
    (by norm_num [walk, walkStep, periodMovements, contributionsSum, withdrawalsSum,
      tradingGain, profitAfterTax, investorAmt, traderAmt, round2, Rat.floor])
    (by norm_num [walk, walkStep, periodMovements, contributionsSum, withdrawalsSum,
      tradingGain, profitAfterTax, investorAmt, traderAmt, round2, Rat.floor])

/-- Claim C7: in every period computation of either walk, profit_after_tax
is trading_gain * (1 - tax_rate), with no floor at zero: with tax_rate
below 1, a negative trading gain yields a negative profit after tax, and
the emitted field is exactly the rounding of that product. -/
theorem claim7_tax_applies_to_losses (cfg : ShareCfg) (movs : List Movement)
    (periodOf : ℤ → ℤ) (cap : ℚ) (p : ℤ) (retPct : ℚ) (gain : ℚ)
    (htax : cfg.tax_rate < 1) (hneg : gain < 0) :
    profitAfterTax cfg gain = gain * (1 - cfg.tax_rate) ∧
    profitAfterTax cfg gain < 0 ∧
    (walkStep cfg movs periodOf cap p retPct).2.profit_after_tax =
      round2 (profitAfterTax cfg (tradingGain
        (cap + (contributionsSum (periodMovements movs periodOf p)
          - withdrawalsSum (periodMovements movs periodOf p))) retPct)) := by
  refine ⟨rfl, ?_, rfl⟩
  have h1 : 0 < 1 - cfg.tax_rate := by linarith
  exact mul_neg_of_neg_of_pos hneg h1

/-- Claim C7 witness: tax rate 0.25, trading gain -100 yields -75. -/
theorem claim7_witness :
    profitAfterTax ⟨1/4, 2/5, 3/5⟩ (-100) = (-100) * (1 - (1/4 : ℚ)) ∧
    profitAfterTax ⟨1/4, 2/5, 3/5⟩ (-100) < 0 ∧
    (walkStep ⟨1/4, 2/5, 3/5⟩ [] (fun d => d) 0 0 0).2.profit_after_tax =
      round2 (profitAfterTax ⟨1/4, 2/5, 3/5⟩ (tradingGain
        (0 + (contributionsSum (periodMovements [] (fun d => d) 0)
          - withdrawalsSum (periodMovements [] (fun d => d) 0))) 0)) :=
  claim7_tax_applies_to_losses ⟨1/4, 2/5, 3/5⟩ [] (fun d => d) 0 0 0 (-100)
    (by norm_num) (by norm_num)

/-- Claim C3 (amended): the unrounded per-period split amounts satisfy
investor + trader = profit_after_tax whenever the resolved configuration
has investor_share + trader_share = 1 (the emitted fields round each amount
to two decimals first and can disagree by a cent), and every update_config
call preserves the invariant trader_share + investor_share = 1. -/
theorem claim3_split_conservation (cfg : ShareCfg) (pat : ℚ)
    (hsum : cfg.investor_share + cfg.trader_share = 1)
    (s : ConfigStore) (hinv : configSplitInvariant s)
    (tax? trader? : Option ℚ) (cid? : Option String) :
    investorAmt cfg pat + traderAmt cfg pat = pat ∧
    configSplitInvariant (updateConfig s tax? trader? cid?) := by
  obtain ⟨hg, hc⟩ := hinv
  have hbase : ∀ b : ShareCfg, b.splitOk →
      (match tax? with | some t => { b with tax_rate := t } | none => b).splitOk := by
    intro b hb
    cases tax? <;> simpa [ShareCfg.splitOk] using hb
  have htrader : ∀ b : ShareCfg, b.splitOk →
      (match trader? with
        | some tr => { b with trader_share := tr, investor_share := 1 - tr }
        | none => b).splitOk := by
    intro b hb
    cases trader? with
    | none => exact hb
    | some tr => simp [ShareCfg.splitOk]
  constructor
  · rw [investorAmt, traderAmt, ← mul_add, hsum, mul_one]
  · cases cid? with
    | none =>
      exact ⟨htrader _ (hbase _ hg), hc⟩
    | some cid =>
      refine ⟨hg, ?_⟩
      intro q hq
      simp only [updateConfig, List.mem_cons] at hq
      rcases hq with hq | hq
      · subst hq
        apply htrader
        apply hbase
        cases hfind : s.clients.find? (fun p => decide (p.1 = cid)) with
        | none => simp [ShareCfg.splitOk]; norm_num
        | some q0 => exact hc q0 (List.mem_of_find?_eq_some hfind)
      · exact hc q (List.mem_filter.mp hq).1

/-- Claim C3 witness: concrete split with investor 0.6, trader 0.4, and a
global trader_share update to 0.5. -/
theorem claim3_witness :
    investorAmt ⟨1/4, 2/5, 3/5⟩ 100 + traderAmt ⟨1/4, 2/5, 3/5⟩ 100 = 100 ∧
    configSplitInvariant (updateConfig ⟨⟨1/4, 2/5, 3/5⟩, []⟩ none (some (1/2)) none) :=
  claim3_split_conservation ⟨1/4, 2/5, 3/5⟩ 100 (by norm_num)
    ⟨⟨1/4, 2/5, 3/5⟩, []⟩ ⟨by norm_num [ShareCfg.splitOk], by simp⟩
    none (some (1/2)) none

lemma monthly_row_guard (trades : List Trade) (clients : List Client)
    (overrides : List CapitalOverride) (movements : List Movement) (monthOf : ℤ → ℤ)
    (cid? : Option String) (r : RetRow)
    (h : r ∈ getMonthlyStrategyReturns trades clients overrides movements monthOf cid?) :
    r.return_pct = returnPctGuard r.total_pl r.client_capital := by
  unfold getMonthlyStrategyReturns at h
  split at h
  · simp at h
  · split at h
    · simp at h
    · obtain ⟨m, hm, rfl⟩ := List.mem_map.mp h
      rfl

lemma biweekly_row_guard (trades : List Trade) (clients : List Client)
    (overrides : List CapitalOverride) (movements : List Movement) (biweekOf : ℤ → ℤ)
    (cid? : Option String) (r : RetRow)
    (h : r ∈ getBiweeklyStrategyReturns trades clients overrides movements biweekOf cid?) :
    r.return_pct = returnPctGuard r.total_pl r.client_capital := by
  unfold getBiweeklyStrategyReturns at h
  split at h
  · simp at h
  · split at h
    · simp at h
    · obtain ⟨p, hp, rfl⟩ := List.mem_map.mp h
      rfl

/-- Claim C5: every row produced by the monthly or biweekly aggregator
whose capital denominator is zero carries a return percentage of exactly 0
(the guard maps the non-finite division result to 0), even when the P&L of
the row is nonzero. -/
theorem claim5_zero_denominator_safety (trades : List Trade) (clients : List Client)
    (overrides : List CapitalOverride) (movements : List Movement)
    (monthOf biweekOf : ℤ → ℤ) (cid? : Option String) (r : RetRow)
    (h : r ∈ getMonthlyStrategyReturns trades clients overrides movements monthOf cid? ∨
         r ∈ getBiweeklyStrategyReturns trades clients overrides movements biweekOf cid?)
    (hcap : r.client_capital = 0) :
    r.return_pct = 0 := by
  have hr : r.return_pct = returnPctGuard r.total_pl r.client_capital := by
    rcases h with h | h
    · exact monthly_row_guard trades clients overrides movements monthOf cid? r h
    · exact biweekly_row_guard trades clients overrides movements biweekOf cid? r h
  rw [hr, hcap]
  simp [returnPctGuard, rawReturnPct]

/-- Claim C5 witness: one trade with P&L 1, no clients, so the default
capital denominator is 0; the emitted return percentage is 0. -/
theorem claim5_witness : (⟨5, 1, 0, 0⟩ : RetRow).return_pct = 0 :=
  claim5_zero_denominator_safety [⟨1, 5, "A", 10, 11, 1⟩] [] [] [] (fun d => d)
    (fun d => d) none ⟨5, 1, 0, 0⟩
    (Or.inl (by norm_num [getMonthlyStrategyReturns, filteredTradesFor, sortAsc, insertAsc,
      getMonthlyCapital, contributionsSum, withdrawalsSum, returnPctGuard, rawReturnPct,
      Trade.profit_loss, List.dedup]))
    rfl

/-- Claim C6: get_monthly_capital returns the override total verbatim when
an override row matches the month, and otherwise the sum of all clients'
starting capital (no filtering on the active flag) plus net contributions
minus withdrawals of all movements, of every client, dated in or before the
month. -/
theorem claim6_monthly_capital (overrides : List CapitalOverride) (clients : List Client)
    (movements : List Movement) (monthOf : ℤ → ℤ) (m : ℤ) :
    (∀ o, overrides.find? (fun x => decide (monthOf x.month = m)) = some o →
      getMonthlyCapital overrides clients movements monthOf m = o.total_capital) ∧
    (overrides.find? (fun x => decide (monthOf x.month = m)) = none →
      getMonthlyCapital overrides clients movements monthOf m =
        (clients.map Client.starting_capital).sum
          + contributionsSum (movements.filter (fun mv => decide (monthOf mv.date ≤ m)))
          - withdrawalsSum (movements.filter (fun mv => decide (monthOf mv.date ≤ m)))) := by
  constructor
  · intro o ho
    simp [getMonthlyCapital, ho]
  · intro ho
    simp [getMonthlyCapital, ho]

/-- Claim C6 witness: an override of 500 for month 3 is returned verbatim;
without overrides the default is starting capital plus net movements. -/
theorem claim6_witness :
    getMonthlyCapital [⟨3, 500⟩] [⟨"c", 100, none, true⟩] [] (fun d => d) 3 = 500 ∧
    getMonthlyCapital [] [⟨"c", 100, none, true⟩] [⟨"c", 2, .contribution, 7⟩]
      (fun d => d) 3 =
      ([⟨"c", 100, none, true⟩].map Client.starting_capital).sum
        + contributionsSum ([⟨"c", 2, .contribution, 7⟩].filter
            (fun mv => decide ((fun d => d) mv.date ≤ 3)))
        - withdrawalsSum ([⟨"c", 2, .contribution, 7⟩].filter
            (fun mv => decide ((fun d => d) mv.date ≤ 3))) :=
  ⟨(claim6_monthly_capital [⟨3, 500⟩] [⟨"c", 100, none, true⟩] [] (fun d => d) 3).1
      ⟨3, 500⟩ (by simp [List.find?]),
   (claim6_monthly_capital [] [⟨"c", 100, none, true⟩] [⟨"c", 2, .contribution, 7⟩]
      (fun d => d) 3).2 rfl⟩

/-- Claim C8: a missing client id yields a null result, and an existing
client whose filtered trade history is empty yields the empty ledger: zero
periods, total_returns 0, and current_capital at the anchor
starting_capital + total contributions - total withdrawals. -/
theorem claim8_not_found_and_empty (monthOf biweekOf : ℤ → ℤ) (trades : List Trade)
    (clients : List Client) (overrides : List CapitalOverride) (movements : List Movement)
    (cfgStore : ConfigStore) (cid : String) :
    (clients.find? (fun c => decide (c.client_id = cid)) = none →
      getClientCapitalFlow monthOf biweekOf trades clients overrides movements cfgStore cid
        = none) ∧
    (∀ client, clients.find? (fun c => decide (c.client_id = cid)) = some client →
      filteredTradesFor trades clients (some cid) = [] →
      getClientCapitalFlow monthOf biweekOf trades clients overrides movements cfgStore cid
        = some
          ⟨client.starting_capital,
           client.starting_capital
             + contributionsSum (movements.filter (fun mv => decide (mv.client_id = cid)))
             - withdrawalsSum (movements.filter (fun mv => decide (mv.client_id = cid))),
           contributionsSum (movements.filter (fun mv => decide (mv.client_id = cid))),
           withdrawalsSum (movements.filter (fun mv => decide (mv.client_id = cid))),
           0, [], []⟩) := by
  constructor
  · intro hc
    unfold getClientCapitalFlow
    rw [hc]
  · intro client hc hf
    have hbw : getBiweeklyStrategyReturns trades clients overrides movements biweekOf
        (some cid) = [] := by
      unfold getBiweeklyStrategyReturns
      by_cases ht : trades.isEmpty
      · simp [ht]
      · simp [ht, hf]
    unfold getClientCapitalFlow
    rw [hc, hbw]
    simp

/-- Claim C8 witness: a query for a client absent from an empty directory
returns none; a known client with no trades gets the empty ledger at the
anchor. -/
theorem claim8_witness :
    getClientCapitalFlow (fun d => d) (fun d => d) [] [] [] [] ⟨⟨1/4, 2/5, 3/5⟩, []⟩ "x"
      = none ∧
    getClientCapitalFlow (fun d => d) (fun d => d) [] [⟨"c", 100, none, true⟩] []
      [⟨"c", 0, .contribution, 50⟩] ⟨⟨1/4, 2/5, 3/5⟩, []⟩ "c"
      = some
        ⟨(100 : ℚ),
         (100 : ℚ)
           + contributionsSum ([⟨"c", 0, .contribution, 50⟩].filter
              (fun mv => decide (mv.client_id = "c")))
           - withdrawalsSum ([⟨"c", 0, .contribution, 50⟩].filter
              (fun mv => decide (mv.client_id = "c"))),
         contributionsSum ([⟨"c", 0, .contribution, 50⟩].filter
            (fun mv => decide (mv.client_id = "c"))),
         withdrawalsSum ([⟨"c", 0, .contribution, 50⟩].filter
            (fun mv => decide (mv.client_id = "c"))),
         0, [], []⟩ :=
  ⟨(claim8_not_found_and_empty (fun d => d) (fun d => d) [] [] [] []
      ⟨⟨1/4, 2/5, 3/5⟩, []⟩ "x").1 rfl,
   (claim8_not_found_and_empty (fun d => d) (fun d => d) [] [⟨"c", 100, none, true⟩] []
      [⟨"c", 0, .contribution, 50⟩] ⟨⟨1/4, 2/5, 3/5⟩, []⟩ "c").2
     ⟨"c", 100, none, true⟩ (by simp [List.find?]) rfl⟩

/-- Claim C10: the current_capital and total_returns of
get_client_capital_flow come from the monthly breakdown when it is
non-empty (last monthly ending capital, sum of monthly profit_after_tax);
only when the monthly breakdown is empty do they come from the biweekly
breakdown. -/
theorem claim10_monthly_precedence (monthOf biweekOf : ℤ → ℤ) (trades : List Trade)
    (clients : List Client) (overrides : List CapitalOverride) (movements : List Movement)
    (cfgStore : ConfigStore) (cid : String) (f : CapitalFlow)
    (hf : getClientCapitalFlow monthOf biweekOf trades clients overrides movements cfgStore
      cid = some f) :
    (∀ e, f.monthly_breakdown.getLast? = some e →
      f.current_capital = e.ending_capital ∧
      f.total_returns = (f.monthly_breakdown.map Entry.profit_after_tax).sum) ∧
    (f.monthly_breakdown = [] → ∀ e, f.biweekly_breakdown.getLast? = some e →
      f.current_capital = e.ending_capital ∧
      f.total_returns = (f.biweekly_breakdown.map Entry.profit_after_tax).sum) := by
  unfold getClientCapitalFlow at hf
  cases hfind : clients.find? (fun c => decide (c.client_id = cid)) with
  | none => rw [hfind] at hf; simp at hf
  | some client =>
    rw [hfind] at hf
    by_cases hbw : (getBiweeklyStrategyReturns trades clients overrides movements biweekOf
        (some cid)).isEmpty
    · simp only [hbw, if_true] at hf
      obtain rfl := Option.some.inj hf
      constructor
      · intro e he
        simp at he
      · intro _ e he
        simp at he
    · simp only [hbw, if_false, Bool.false_eq_true] at hf
      obtain rfl := Option.some.inj hf
      constructor
      · intro e he
        simp only at he ⊢
        rw [he]
        exact ⟨rfl, rfl⟩
      · intro hmo e he
        simp only at hmo he ⊢
        rw [hmo]
        simp only [List.getLast?_nil]
        rw [he]
        exact ⟨rfl, trivial⟩

/-- Claim C1 (amended): the biweekly walk initializes its running capital
to the anchor starting_capital + total contributions - total withdrawals,
so its first emitted starting_capital is the (rounded) anchor; the monthly
walk instead initializes to the client's literal starting_capital, so its
first emitted starting_capital is the (rounded) literal value. -/
theorem claim1_anchor_initialization (monthOf biweekOf : ℤ → ℤ) (trades : List Trade)
    (clients : List Client) (overrides : List CapitalOverride) (movements : List Movement)
    (cfgStore : ConfigStore) (cid : String) (client : Client) (f : CapitalFlow)
    (hc : clients.find? (fun c => decide (c.client_id = cid)) = some client)
    (hf : getClientCapitalFlow monthOf biweekOf trades clients overrides movements cfgStore
      cid = some f) :
    (∀ e, f.biweekly_breakdown.head? = some e →
      e.starting_capital = round2 (client.starting_capital
        + contributionsSum (movements.filter (fun m => decide (m.client_id = cid)))
        - withdrawalsSum (movements.filter (fun m => decide (m.client_id = cid))))) ∧
    (∀ e, f.monthly_breakdown.head? = some e →
      e.starting_capital = round2 client.starting_capital) := by
  unfold getClientCapitalFlow at hf
  rw [hc] at hf
  by_cases hbw : (getBiweeklyStrategyReturns trades clients overrides movements biweekOf
      (some cid)).isEmpty
  · simp only [hbw, if_true] at hf
    obtain rfl := Option.some.inj hf
    constructor
    · intro e he
      simp at he
    · intro e he
      simp at he
  · simp only [hbw, if_false, Bool.false_eq_true] at hf
    obtain rfl := Option.some.inj hf
    constructor
    · intro e he
      simp only at he
      exact walk_head_starting _ _ _ _ _ _ he
    · intro e he
      simp only at he
      exact walk_head_starting _ _ _ _ _ _ he

/-- Concrete counterexample state: one client with literal starting capital
100 and one prior contribution of 50 (anchor 150), one trade with P&L 1,
and a capital override of 100 for the trade's period. -/
def cexTrades : List Trade := [⟨1, 5, "A", 10, 11, 1⟩]

def cexClients : List Client := [⟨"c", 100, none, true⟩]

def cexOverrides : List CapitalOverride := [⟨5, 100⟩]

def cexMovs : List Movement := [⟨"c", 0, .contribution, 50⟩]

def cexCfg : ConfigStore := ⟨⟨1/4, 2/5, 3/5⟩, []⟩

/-- The monthly entry the engine emits for the counterexample state. -/
def cexEntryMo : Entry := ⟨5, 100, 0, 0, 0, 100, 1, 3/4, 9/20, 3/10, 2009/20⟩

/-- The biweekly entry the engine emits for the counterexample state. -/
def cexEntryBw : Entry := ⟨5, 150, 0, 0, 0, 150, 1, 113/100, 17/25, 9/20, 3767/25⟩

/-- The full flow record the engine returns for the counterexample state. -/
def cexFlow : CapitalFlow := ⟨100, 2009/20, 50, 0, 3/4, [cexEntryMo], [cexEntryBw]⟩

lemma cex_flow_eval :
    getClientCapitalFlow (fun d => d) (fun d => d) cexTrades cexClients cexOverrides cexMovs
      cexCfg "c" = some cexFlow := by
  norm_num [getClientCapitalFlow, getBiweeklyStrategyReturns, getMonthlyStrategyReturns,
    filteredTradesFor, sortAsc, insertAsc, getMonthlyCapital, getBiweeklyCapital,
    contributionsSum, withdrawalsSum, returnPctGuard, rawReturnPct, Trade.profit_loss,
    walk, walkStep, walkFinal, periodMovements, tradingGain, profitAfterTax, investorAmt,
    traderAmt, getConfig, round2, Rat.floor, List.dedup, List.find?, List.filter,
    cexTrades, cexClients, cexOverrides, cexMovs, cexCfg, cexFlow, cexEntryMo, cexEntryBw]

/-- Claim C1 counterexample to the claim as stated: in the counterexample
state the anchor is 150 (starting 100 plus contribution 50), yet the first
monthly period's starting_capital field is the literal 100, not the
anchor. -/
theorem claim1_counterexample :
    getClientCapitalFlow (fun d => d) (fun d => d) cexTrades cexClients cexOverrides cexMovs
        cexCfg "c" = some cexFlow ∧
    (cexFlow.monthly_breakdown.map Entry.starting_capital).head? = some 100 ∧
    cexFlow.starting_capital + cexFlow.total_contributions - cexFlow.total_withdrawals
      = 150 ∧
    (100 : ℚ) ≠ 150 := by
  refine ⟨cex_flow_eval, ?_, ?_, by norm_num⟩
  · norm_num [cexFlow, cexEntryMo]
  · norm_num [cexFlow]

/-- Claim C1 witness: in the counterexample state the first biweekly
starting_capital is the rounded anchor and the first monthly
starting_capital is the rounded literal starting capital. -/
theorem claim1_witness :
    cexEntryBw.starting_capital = round2 ((100 : ℚ)
      + contributionsSum (cexMovs.filter (fun m => decide (m.client_id = "c")))
      - withdrawalsSum (cexMovs.filter (fun m => decide (m.client_id = "c")))) ∧
    cexEntryMo.starting_capital = round2 (100 : ℚ) :=
  ⟨(claim1_anchor_initialization (fun d => d) (fun d => d) cexTrades cexClients cexOverrides
      cexMovs cexCfg "c" ⟨"c", 100, none, true⟩ cexFlow (by simp [cexClients, List.find?])
      cex_flow_eval).1 cexEntryBw (by simp [cexFlow]),
   (claim1_anchor_initialization (fun d => d) (fun d => d) cexTrades cexClients cexOverrides
      cexMovs cexCfg "c" ⟨"c", 100, none, true⟩ cexFlow (by simp [cexClients, List.find?])
      cex_flow_eval).2 cexEntryMo (by simp [cexFlow])⟩

/-- Claim C10 witness: in the counterexample state the monthly breakdown is
non-empty, and the returned current_capital and total_returns are the last
monthly ending capital and the monthly profit_after_tax sum. -/
theorem claim10_witness :
    cexFlow.current_capital = cexEntryMo.ending_capital ∧
    cexFlow.total_returns = (cexFlow.monthly_breakdown.map Entry.profit_after_tax).sum :=
  (claim10_monthly_precedence (fun d => d) (fun d => d) cexTrades cexClients cexOverrides
      cexMovs cexCfg "c" cexFlow cex_flow_eval).1 cexEntryMo (by simp [cexFlow])

/-- Claim C3 counterexample to the claim as stated: with tax 0, shares
0.5/0.5 summing to 1, a period whose profit after tax is one cent emits
rounded investor and trader shares of one cent each, so the emitted sum
0.02 differs from the emitted profit_after_tax 0.01. -/
theorem claim3_counterexample :
    (⟨0, 1/2, 1/2⟩ : ShareCfg).investor_share + (⟨0, 1/2, 1/2⟩ : ShareCfg).trader_share
        = 1 ∧
    (walk ⟨0, 1/2, 1/2⟩ [] (fun d => d) 100 [⟨0, 0, 0, 1/100⟩]).head?.map
        (fun e => e.investor_share + e.trader_share) = some (2/100) ∧
    (walk ⟨0, 1/2, 1/2⟩ [] (fun d => d) 100 [⟨0, 0, 0, 1/100⟩]).head?.map
        Entry.profit_after_tax = some (1/100) ∧
    (2/100 : ℚ) ≠ 1/100 := by
  refine ⟨by norm_num, ?_, ?_, by norm_num⟩ <;>
    norm_num [walk, walkStep, periodMovements, contributionsSum, withdrawalsSum,
      tradingGain, profitAfterTax, investorAmt, traderAmt, round2, Rat.floor]


lemma sig_mem_dedupBySig (l : List Trade) :
    ∀ (seen : List (ℤ × ℤ × String × ℚ × ℚ × ℚ)) (t : Trade), t ∈ l →
      t.sig ∈ seen ∨ t.sig ∈ (dedupBySig seen l).map Trade.sig := by
  induction l with
  | nil =>
    intro seen t ht
    simp at ht
  | cons a as ih =>
    intro seen t ht
    rcases List.mem_cons.mp ht with rfl | ht
    · by_cases ha : t.sig ∈ seen
      · exact Or.inl ha
      · right
        simp [dedupBySig, ha]
    · by_cases ha : a.sig ∈ seen
      · rcases ih seen t ht with h | h
        · exact Or.inl h
        · right
          simpa [dedupBySig, ha] using h
      · rcases ih (a.sig :: seen) t ht with h | h
        · rcases List.mem_cons.mp h with heq | hseen
          · right
            simp [dedupBySig, ha, heq]
          · exact Or.inl hseen
        · right
          simp only [dedupBySig, ha, if_false, List.map_cons, List.mem_cons]
          exact Or.inr h

/-- Claim C9: trade import is idempotent: uploading the same batch twice
leaves the trade store as it is after the first upload; rows whose
six-field signature matches a stored trade are dropped and in-batch
duplicates are deduplicated keeping the first occurrence. -/
theorem claim9_upload_idempotent (autoRemove : Bool) (store batch : List Trade) :
    uploadTrades autoRemove (uploadTrades autoRemove store batch) batch
      = uploadTrades autoRemove store batch := by
  unfold uploadTrades
  set b1 := if autoRemove then batch.filter (fun t => decide (t.buy_date ≠ t.sell_date))
    else batch with hb1
  by_cases hs : store.isEmpty
  · simp only [hs, if_true]
    by_cases hd : (dedupBySig [] b1).isEmpty
    · have hb : b1 = [] := by
        cases hb : b1 with
        | nil => rfl
        | cons t ts =>
          rw [hb] at hd
          simp [dedupBySig] at hd
      simp [hb, dedupBySig]
    · simp only [hd, if_false, Bool.false_eq_true]
      have hfil : b1.filter
          (fun t => decide (t.sig ∉ (dedupBySig [] b1).map Trade.sig)) = [] := by
        rw [List.filter_eq_nil_iff]
        intro t ht
        rcases sig_mem_dedupBySig b1 [] t ht with h | h
        · simp at h
        · simp [h]
      rw [hfil]
      simp [dedupBySig]
  · simp only [hs, if_false, Bool.false_eq_true]
    have hne : ((store ++ dedupBySig [] (b1.filter
        (fun t => decide (t.sig ∉ store.map Trade.sig)))).isEmpty) = false := by
      cases store with
      | nil => simp at hs
      | cons a as => rfl
    simp only [hne, if_false, Bool.false_eq_true]
    have hfil : b1.filter (fun t => decide (t.sig ∉ (store ++ dedupBySig [] (b1.filter
        (fun t => decide (t.sig ∉ store.map Trade.sig)))).map Trade.sig)) = [] := by
      rw [List.filter_eq_nil_iff]
      intro t ht
      simp only [List.map_append, List.mem_append, decide_eq_true_eq, not_not,
        Decidable.not_not]
      by_cases hsig : t.sig ∈ store.map Trade.sig
      · exact Or.inl hsig
      · have htb2 : t ∈ b1.filter (fun t => decide (t.sig ∉ store.map Trade.sig)) :=
          List.mem_filter.mpr ⟨ht, by simpa using hsig⟩
        rcases sig_mem_dedupBySig _ [] t htb2 with h | h
        · simp at h
        · exact Or.inr h
    rw [hfil]
    simp [dedupBySig]
